import Mathlib

set_option maxHeartbeats 1000000

/-!
Shallow embedding of the `pyparse` parser-combinator library
(`src/misc/pyparse/pyparse.py` and `src/misc/pyparse/parsers.py`).

Python strings are modelled as Lean `String`; segment computations work on
the underlying character list (`String.data`) so that everything reduces in
the kernel.  A Python parse result (`Any`) is modelled by the inductive
`Res`: the values that actually flow through the library are `None`, strings
and (nested) lists of results.  A parser (`PyParse.state_transformer`) is a
function `ParserState → ParserState`.  The two looping combinators (`many`,
`seperated_by`) are written with an explicit fuel parameter and return
`Option ParserState`; `Option.none` corresponds to the Python loop not
having terminated within the given fuel.
-/

namespace PyParse

/-- Parse results: Python `None`, a string, or a (possibly nested) list. -/
inductive Res where
  | none : Res
  | str : String → Res
  | list : List Res → Res

mutual
def Res.decEq : (a b : Res) → Decidable (a = b)
  | Res.none, Res.none => isTrue rfl
  | Res.none, Res.str _ => isFalse (fun h => Res.noConfusion h)
  | Res.none, Res.list _ => isFalse (fun h => Res.noConfusion h)
  | Res.str _, Res.none => isFalse (fun h => Res.noConfusion h)
  | Res.str a, Res.str b =>
      match String.decEq a b with
      | isTrue h => isTrue (h ▸ rfl)
      | isFalse h => isFalse (fun e => h (Res.str.inj e))
  | Res.str _, Res.list _ => isFalse (fun h => Res.noConfusion h)
  | Res.list _, Res.none => isFalse (fun h => Res.noConfusion h)
  | Res.list _, Res.str _ => isFalse (fun h => Res.noConfusion h)
  | Res.list a, Res.list b =>
      match Res.decEqList a b with
      | isTrue h => isTrue (h ▸ rfl)
      | isFalse h => isFalse (fun e => h (Res.list.inj e))
def Res.decEqList : (a b : List Res) → Decidable (a = b)
  | [], [] => isTrue rfl
  | [], _ :: _ => isFalse (fun h => List.noConfusion h)
  | _ :: _, [] => isFalse (fun h => List.noConfusion h)
  | a :: as, b :: bs =>
      match Res.decEq a b, Res.decEqList as bs with
      | isTrue h1, isTrue h2 => isTrue (h1 ▸ h2 ▸ rfl)
      | isFalse h1, _ => isFalse (fun e => h1 (List.head_eq_of_cons_eq e))
      | _, isFalse h2 => isFalse (fun e => h2 (List.tail_eq_of_cons_eq e))
end

instance : DecidableEq Res := Res.decEq

/-- The `result` argument of `ParserState.update`.  In the source it is
`Any | Callable[[], Any]`: passing `None` means "keep the old result",
passing a non-`None` value sets it, and passing a provider function sets
the value it returns (even `None`). -/
inductive ResArg where
  | keep : ResArg
  | val : Res → ResArg
  | provider : Res → ResArg

/-- Python `result is not None`. -/
def Res.is_present : Res → Bool
  | Res.none => false
  | _ => true

/-- Model of the frozen dataclass `ParserState` (pyparse.py, lines 29-46). -/
@[ext]
structure ParserState where
  target : String
  traverse : Bool
  index : Nat
  furthest_index : Nat
  result : Res
  is_error : Bool
  errors : List String
deriving DecidableEq

/-- Model of `ParserState.update` (pyparse.py, lines 48-95).  An argument of
`Option.none` (Python `None`) keeps the previous field value; the
`furthest_index` of the new state is raised to the new index whenever that
index exceeds it; a plain `result` value of Python `None` (`ResArg.val
Res.none`) is dropped, while a provider always sets the result it returns. -/
def ParserState.update (s : ParserState) (index : Option Nat) (furthest_index : Option Nat)
    (result : ResArg) (is_error : Option Bool) (errors : Option (List String)) : ParserState :=
  let fi := furthest_index.getD s.furthest_index
  let t_idx := index.getD s.index
  { s with
    index := t_idx
    furthest_index := if fi < t_idx then t_idx else fi
    result := match result with
      | ResArg.keep => s.result
      | ResArg.val Res.none => s.result
      | ResArg.val r => r
      | ResArg.provider r => r
    is_error := is_error.getD s.is_error
    errors := errors.getD s.errors }

/-- Model of `ParserState.get_target_segment` (pyparse.py, line 104):
`target[(start_index|index):]` as a character list. -/
def ParserState.get_target_segment (s : ParserState) (start_index : Option Nat) : List Char :=
  s.target.data.drop (start_index.getD s.index)

/-- Model of `ParserState.has_chars_remaining` (pyparse.py, line 109). -/
def ParserState.has_chars_remaining (s : ParserState) (num_chars : Nat)
    (start_index : Option Nat) : Bool :=
  num_chars ≤ (s.get_target_segment start_index).length

/-- Model of `ParserState.is_remaining_target_empty` (pyparse.py, line 114). -/
def ParserState.is_remaining_target_empty (s : ParserState) (start_index : Option Nat) : Bool :=
  !(s.has_chars_remaining 1 start_index)

/-- Model of `ParserState.update_result_and_index` (pyparse.py, line 145). -/
def ParserState.update_result_and_index (s : ParserState) (new_result : ResArg)
    (next_index : Option Nat) (furthest_index : Option Nat) : ParserState :=
  s.update next_index furthest_index new_result Option.none Option.none

/-- Model of `ParserState.update_result_offset_index` (pyparse.py, line 138). -/
def ParserState.update_result_offset_index (s : ParserState) (new_result : ResArg)
    (offset : Nat) (furthest_index : Option Nat) : ParserState :=
  s.update_result_and_index new_result (some (s.index + offset)) furthest_index

/-- Model of `ParserState.update_result_shift_length` (pyparse.py, line 131). -/
def ParserState.update_result_shift_length (s : ParserState) (new_result : String)
    (furthest_index : Option Nat) : ParserState :=
  s.update_result_offset_index (ResArg.val (Res.str new_result)) new_result.length furthest_index

/-- Model of `ParserState.add_error` (pyparse.py, line 173).  Note that the
`index` parameter is forwarded as the `furthest_index` argument of `update`. -/
def ParserState.add_error (s : ParserState) (message : String) (index : Option Nat) : ParserState :=
  s.update Option.none index ResArg.keep (some true) (some (message :: s.errors))

/-- Model of `ParserState.add_errors` (pyparse.py, line 182). -/
def ParserState.add_errors (s : ParserState) (messages : List String)
    (index : Option Nat) : ParserState :=
  s.update Option.none index ResArg.keep (some true) (some (messages ++ s.errors))

/-- Model of `ParserState.assign_errors` (pyparse.py, line 191). -/
def ParserState.assign_errors (s : ParserState) (label : String) : ParserState :=
  s.update Option.none Option.none ResArg.keep Option.none
    (some (s.errors.map (fun e => label ++ ": " ++ e)))

/-- Model of `ParserState.error_target_empty` (pyparse.py, line 166). -/
def ParserState.error_target_empty (s : ParserState) (label : Option String) : ParserState :=
  s.add_error ((match label with | some n => n ++ ": " | Option.none => "") ++ "reached EOF")
    Option.none

/-- A parser is its `state_transformer` (pyparse.py, line 257). -/
abbrev Transformer := ParserState → ParserState

/-- The loop of `find_string_transformer` (parsers.py, lines 26-51), with the
scan position `c_idx` explicit and a fuel argument for the `traverse` scan
(the loop advances `c_idx` at most `target.length` times). -/
def find_string_go (to_match : String) (state : ParserState) : Nat → Nat → ParserState
  | _, 0 => state
  | c_idx, Nat.succ fuel =>
    if state.is_remaining_target_empty (some c_idx) then
      state.error_target_empty (some "string")
    else
      let current := state.get_target_segment (some c_idx)
      if to_match.data.isPrefixOf current then
        state.update_result_and_index (ResArg.val (Res.str to_match))
          (some (c_idx + to_match.length)) Option.none
      else if state.traverse && state.has_chars_remaining to_match.length (some (c_idx + 1)) then
        find_string_go to_match state (c_idx + 1) fuel
      else
        state.add_error ("string: Expected \x27" ++ to_match ++ "\x27, found \x27"
          ++ String.mk (if state.traverse then state.get_target_segment Option.none
              else current.take (to_match.length + 10))
          ++ (if 10 < (state.get_target_segment Option.none).length then "..." else "")
          ++ "\x27")
          Option.none

/-- Model of `string` for a single literal (parsers.py, lines 6-53; the
tuple case builds a regex and is not modelled here). -/
def string (to_match : String) : Transformer := fun state =>
  if state.is_error then state
  else find_string_go to_match state state.index (state.target.length + 1)

/-- Model of `regex` (parsers.py, lines 56-83).  The compiled, `^`-anchored
pattern is abstracted as `pmatch`: applied to the remaining segment it
returns `some m` when the anchored pattern matches with `match.group(0) = m`,
and `Option.none` when it does not match. -/
def regex (pat : String) (pmatch : List Char → Option String) : Transformer := fun state =>
  if state.is_error then state
  else if state.is_remaining_target_empty Option.none then
    state.error_target_empty (some "regex")
  else
    match pmatch (state.get_target_segment Option.none) with
    | Option.none =>
        state.add_error ("regex: Expected \x27" ++ pat ++ "\x27, found \x27"
          ++ String.mk ((state.get_target_segment Option.none).take 10)
          ++ (if 10 < (state.get_target_segment Option.none).length then "..." else "")
          ++ "\x27")
          Option.none
    | some m => state.update_result_shift_length m Option.none

/-- The anchored match function of the compiled pattern `[0-9]+`: the maximal
digit prefix, failing when it is empty. -/
def digitsMatch (seg : List Char) : Option String :=
  let r := seg.takeWhile Char.isDigit
  if r.length = 0 then Option.none else some (String.mk r)

/-- Model of `DIGITS = regex('[0-9]+')` (parsers.py, line 86). -/
def DIGITS : Transformer := regex "[0-9]+" digitsMatch

/-- Model of `optional` (parsers.py, lines 90-114). -/
def optional (p : Transformer) : Transformer := fun state =>
  if state.is_error then state
  else
    let temp_state := p state
    if temp_state.is_error then
      state.update_result_and_index (ResArg.provider Res.none) Option.none
        (some temp_state.furthest_index)
    else temp_state

/-- The loop of `parser_sequence_transformer` (parsers.py, lines 124-146),
with the accumulated `results` list and the incoming state `orig` explicit. -/
def sequence_go (orig : ParserState) : List Transformer → List Res → ParserState → ParserState
  | [], results, current =>
      if results.length = 0 then
        orig.add_error "sequence: parsers matched nothing!" (some current.furthest_index)
      else
        current.update_result_and_index
          (ResArg.val (Res.list (results.filter Res.is_present))) Option.none Option.none
  | p :: rest, results, current =>
      let next := p current
      if next.is_error then next.add_error "sequence: component failed to match" Option.none
      else sequence_go orig rest (results ++ [next.result]) next

/-- Model of `sequence_of` (parsers.py, lines 117-148). -/
def sequence_of (ps : List Transformer) : Transformer := fun state =>
  if state.is_error then state
  else sequence_go state ps [] state

/-- The loop of `any_parser_transformer` (parsers.py, lines 160-175), with
the accumulator `furthest_of_all` explicit. -/
def any_go (state : ParserState) : List Transformer → Nat → ParserState
  | [], furthest_of_all =>
      state.add_error "any_of: no target matched!" (some furthest_of_all)
  | p :: rest, furthest_of_all =>
      let temp_state := p state
      let f2 := if furthest_of_all < temp_state.furthest_index
        then temp_state.furthest_index else furthest_of_all
      if temp_state.is_error then any_go state rest f2 else temp_state

/-- Model of `any_of` (parsers.py, lines 151-177). -/
def any_of (ps : List Transformer) : Transformer := fun state =>
  if state.is_error then state
  else any_go state ps 0

/-- The loop of `many_transformer` (parsers.py, lines 191-209), with fuel;
`Option.none` means the Python loop would not have terminated in `fuel`
iterations. -/
def many_go (p : Transformer) (minimum_number : Nat) (state : ParserState) :
    Nat → List Res → ParserState → Option ParserState
  | 0, _, _ => Option.none
  | Nat.succ fuel, results, current =>
      let temp_state := p current
      if temp_state.is_error then
        if results.length < minimum_number then
          some (state.add_error ("many: " ++ toString results.length ++ " matches, "
            ++ toString minimum_number ++ " required!") (some current.furthest_index))
        else
          some (current.update_result_and_index (ResArg.val (Res.list results)) Option.none
            (some current.furthest_index))
      else many_go p minimum_number state fuel (results ++ [temp_state.result]) temp_state

/-- Model of `many` (parsers.py, lines 180-211). -/
def many (p : Transformer) (minimum_number : Nat) (fuel : Nat) :
    ParserState → Option ParserState := fun state =>
  if state.is_error then some state
  else many_go p minimum_number state fuel [] state

/-- The loop of `seperated_by_transformer` (parsers.py, lines 232-266), with
fuel; `Option.none` means the Python loop would not have terminated in
`fuel` iterations. -/
def sep_go (sep tgt : Transformer) : Nat → List Res → ParserState → Option ParserState
  | 0, _, _ => Option.none
  | Nat.succ fuel, results, current_state =>
      let results := results ++ [current_state.result]
      if current_state.is_remaining_target_empty Option.none then
        some (current_state.update_result_and_index (ResArg.val (Res.list results))
          Option.none Option.none)
      else
        let seperator_state := sep current_state
        if seperator_state.is_error ||
            seperator_state.is_remaining_target_empty Option.none then
          some (current_state.update_result_and_index (ResArg.val (Res.list results))
            Option.none (some seperator_state.furthest_index))
        else
          let next_state := tgt seperator_state
          if next_state.is_error then
            some (current_state.update_result_and_index (ResArg.val (Res.list results))
              Option.none (some next_state.furthest_index))
          else sep_go sep tgt fuel (results ++ [seperator_state.result]) next_state

/-- Model of `seperated_by` (parsers.py, lines 214-268). -/
def seperated_by (sep tgt : Transformer) (fuel : Nat) :
    ParserState → Option ParserState := fun state =>
  if state.is_error then some state
  else
    let current_state := tgt state
    if current_state.is_error then some (current_state.assign_errors "seperated_by")
    else sep_go sep tgt fuel [] current_state

/-- Model of `PyParse.map` (pyparse.py, lines 267-289).  A mapped result of
Python `None` is forwarded to `update` as a plain value, where it is
dropped (the old result is kept). -/
def map (p : Transformer) (f : Res → Res) : Transformer := fun state =>
  let new_state := p state
  if new_state.is_error then new_state
  else new_state.update Option.none Option.none (ResArg.val (f new_state.result))
    Option.none Option.none

/-- Model of the lambda `x[1] if is_iterable(x) else x` in `PyParse.between`
(pyparse.py, line 297).  On a list shorter than two elements Python raises
`IndexError`; the model returns `Res.none` there (no theorem relies on
that case). -/
def between_pick (x : Res) : Res :=
  match x with
  | Res.list l => l.getD 1 Res.none
  | r => r

/-- Model of `PyParse.between` (pyparse.py, lines 291-297); `Option.none` for
`right` models the omitted default argument, in which case `left` is used. -/
def between (p : Transformer) (left : Transformer) (right : Option Transformer) : Transformer :=
  map (sequence_of [left, p, right.getD left]) between_pick

/-- Model of `lazy` (parsers.py, lines 271-284). -/
def lazy (provider : Unit → Transformer) : Transformer := fun state =>
  if state.is_error then state else (provider ()) state

/-- The seed state built by `PyParse.run` (pyparse.py, line 265):
`ParserState(target=target, traverse=traverse)` with all other fields at
their dataclass defaults. -/
def initState (target : String) (traverse : Bool) : ParserState :=
  { target := target, traverse := traverse, index := 0, furthest_index := 0,
    result := Res.none, is_error := false, errors := [] }

/-- Model of `PyParse.run` (pyparse.py, lines 259-265). -/
def run (p : Transformer) (target : String) (traverse : Bool) : ParserState :=
  p (initState target traverse)

/-- Iterated application of a transformer: `chain p s k` is the state after
`k` applications of `p` starting from `s`. -/
def chain (p : Transformer) (s : ParserState) : Nat → ParserState
  | 0 => s
  | Nat.succ k => p (chain p s k)

/-- Furthest-index monotonicity of a transformer: the state it returns never
has a smaller `furthest_index` than the state it was given. -/
def FMono (t : Transformer) : Prop :=
  ∀ s : ParserState, s.furthest_index ≤ (t s).furthest_index

/-- Every parser in the list, applied in sequence (each to the state produced
by its predecessor), succeeds and produces a Python `None` result. -/
def allSucceedNone : List Transformer → ParserState → Bool
  | [], _ => true
  | p :: rest, s =>
      if (p s).is_error then false
      else if Res.is_present (p s).result then false
      else allSucceedNone rest (p s)

/-!
Helper lemmas about the fields of `ParserState.update` and the derived
state-transition operations.
-/

theorem update_target (s : ParserState) (i fi : Option Nat) (r : ResArg) (e : Option Bool)
    (errs : Option (List String)) : (s.update i fi r e errs).target = s.target := rfl

theorem update_traverse (s : ParserState) (i fi : Option Nat) (r : ResArg) (e : Option Bool)
    (errs : Option (List String)) : (s.update i fi r e errs).traverse = s.traverse := rfl

theorem update_index (s : ParserState) (i fi : Option Nat) (r : ResArg) (e : Option Bool)
    (errs : Option (List String)) : (s.update i fi r e errs).index = i.getD s.index := rfl

theorem update_is_error (s : ParserState) (i fi : Option Nat) (r : ResArg) (e : Option Bool)
    (errs : Option (List String)) : (s.update i fi r e errs).is_error = e.getD s.is_error := rfl

theorem update_errors (s : ParserState) (i fi : Option Nat) (r : ResArg) (e : Option Bool)
    (errs : Option (List String)) : (s.update i fi r e errs).errors = errs.getD s.errors := rfl

theorem update_furthest_index (s : ParserState) (i fi : Option Nat) (r : ResArg) (e : Option Bool)
    (errs : Option (List String)) :
    (s.update i fi r e errs).furthest_index = max (fi.getD s.furthest_index) (i.getD s.index) := by
  simp only [ParserState.update]
  split <;> omega

theorem update_result_keep (s : ParserState) (i fi : Option Nat) (e : Option Bool)
    (errs : Option (List String)) : (s.update i fi ResArg.keep e errs).result = s.result := rfl

theorem update_result_provider (s : ParserState) (i fi : Option Nat) (r : Res) (e : Option Bool)
    (errs : Option (List String)) : (s.update i fi (ResArg.provider r) e errs).result = r := rfl

theorem update_result_val_none (s : ParserState) (i fi : Option Nat) (e : Option Bool)
    (errs : Option (List String)) :
    (s.update i fi (ResArg.val Res.none) e errs).result = s.result := rfl

theorem update_result_val_present (s : ParserState) (i fi : Option Nat) (r : Res)
    (e : Option Bool) (errs : Option (List String)) (h : r ≠ Res.none) :
    (s.update i fi (ResArg.val r) e errs).result = r := by
  cases r with
  | none => exact absurd rfl h
  | str a => rfl
  | list l => rfl

theorem fmono_update (s : ParserState) (i : Option Nat) (fi : Option Nat) (r : ResArg)
    (e : Option Bool) (errs : Option (List String))
    (h : s.furthest_index ≤ fi.getD s.furthest_index) :
    s.furthest_index ≤ (s.update i fi r e errs).furthest_index := by
  rw [update_furthest_index]
  exact le_trans h (le_max_left _ _)

theorem fmono_update_none (s : ParserState) (i : Option Nat) (r : ResArg)
    (e : Option Bool) (errs : Option (List String)) :
    s.furthest_index ≤ (s.update i Option.none r e errs).furthest_index :=
  fmono_update s i Option.none r e errs (le_refl _)

theorem add_error_furthest_index (s : ParserState) (msg : String) (idx : Option Nat) :
    (s.add_error msg idx).furthest_index = max (idx.getD s.furthest_index) s.index := by
  rw [ParserState.add_error, update_furthest_index]
  simp only [Option.getD_none]

/-!
Furthest-index monotonicity of each combinator, used for claim C2.
-/

theorem find_string_go_fmono (tm : String) (s : ParserState) :
    ∀ (fuel c_idx : Nat), s.furthest_index ≤ (find_string_go tm s c_idx fuel).furthest_index := by
  intro fuel
  induction fuel with
  | zero => intro c_idx; exact le_refl _
  | succ n ih =>
      intro c_idx
      simp only [find_string_go]
      split
      · exact fmono_update_none _ _ _ _ _
      · split
        · exact fmono_update_none _ _ _ _ _
        · split
          · exact ih (c_idx + 1)
          · exact fmono_update_none _ _ _ _ _

theorem string_fmono (tm : String) : FMono (string tm) := by
  intro s
  simp only [string]
  split
  · exact le_refl _
  · exact find_string_go_fmono tm s _ _

theorem regex_fmono (pat : String) (f : List Char → Option String) : FMono (regex pat f) := by
  intro s
  simp only [regex]
  split
  · exact le_refl _
  · split
    · exact fmono_update_none _ _ _ _ _
    · cases h : f (s.get_target_segment Option.none) with
      | none => simp only [h]; exact fmono_update_none _ _ _ _ _
      | some m => simp only [h]; exact fmono_update_none _ _ _ _ _

theorem optional_fmono (p : Transformer) (hp : FMono p) : FMono (optional p) := by
  intro s
  simp only [optional]
  split
  · exact le_refl _
  · split
    · exact fmono_update s _ _ _ _ _ (by simpa using hp s)
    · exact hp s

theorem sequence_go_fmono (orig : ParserState) :
    ∀ (ps : List Transformer) (results : List Res) (current : ParserState),
      (∀ p ∈ ps, FMono p) → orig.furthest_index ≤ current.furthest_index →
      orig.furthest_index ≤ (sequence_go orig ps results current).furthest_index := by
  intro ps
  induction ps with
  | nil =>
      intro results current _ h
      simp only [sequence_go]
      split
      · exact fmono_update orig _ _ _ _ _ (by simpa using h)
      · exact le_trans h (fmono_update_none current _ _ _ _)
  | cons p rest ih =>
      intro results current hm h
      simp only [sequence_go]
      split
      · exact le_trans (le_trans h (hm p (by simp) current)) (fmono_update_none _ _ _ _ _)
      · exact ih _ _ (fun q hq => hm q (by simp [hq])) (le_trans h (hm p (by simp) current))

theorem sequence_of_fmono (ps : List Transformer) (hm : ∀ p ∈ ps, FMono p) :
    FMono (sequence_of ps) := by
  intro s
  simp only [sequence_of]
  split
  · exact le_refl _
  · exact sequence_go_fmono s ps [] s hm (le_refl _)

theorem any_go_fmono (s : ParserState) :
    ∀ (ps : List Transformer) (f : Nat), (∀ p ∈ ps, FMono p) →
      s.furthest_index ≤ f → s.furthest_index ≤ (any_go s ps f).furthest_index := by
  intro ps
  induction ps with
  | nil =>
      intro f _ hf
      exact fmono_update s _ _ _ _ _ (by simpa using hf)
  | cons p rest ih =>
      intro f hm hf
      simp only [any_go]
      split
      · refine ih _ (fun q hq => hm q (by simp [hq])) ?_
        have h1 := hm p (by simp) s
        split <;> omega
      · exact hm p (by simp) s

theorem any_of_fmono (ps : List Transformer) (hne : ps ≠ []) (hm : ∀ p ∈ ps, FMono p) :
    FMono (any_of ps) := by
  intro s
  simp only [any_of]
  split
  · exact le_refl _
  · cases ps with
    | nil => exact absurd rfl hne
    | cons p rest =>
        simp only [any_go]
        split
        · refine any_go_fmono s rest _ (fun q hq => hm q (by simp [hq])) ?_
          have h1 := hm p (by simp) s
          split <;> omega
        · exact hm p (by simp) s

theorem many_go_fmono (p : Transformer) (m : Nat) (state : ParserState) (hp : FMono p) :
    ∀ (fuel : Nat) (results : List Res) (current t : ParserState),
      state.furthest_index ≤ current.furthest_index →
      many_go p m state fuel results current = some t →
      state.furthest_index ≤ t.furthest_index := by
  intro fuel
  induction fuel with
  | zero => intro results current t _ h; exact absurd h (by simp [many_go])
  | succ n ih =>
      intro results current t hc h
      simp only [many_go] at h
      split at h
      · split at h
        · cases h
          exact fmono_update state _ _ _ _ _ (by simpa using hc)
        · cases h
          exact le_trans hc (fmono_update current _ _ _ _ _ (by simp))
      · exact ih _ _ _ (le_trans hc (hp current)) h

theorem many_fmono (p : Transformer) (m fuel : Nat) (hp : FMono p) (s t : ParserState)
    (h : many p m fuel s = some t) : s.furthest_index ≤ t.furthest_index := by
  simp only [many] at h
  split at h
  · cases h; exact le_refl _
  · exact many_go_fmono p m s hp fuel [] s t (le_refl _) h

theorem sep_go_fmono (sep tgt : Transformer) (hs : FMono sep) (ht : FMono tgt) (base : Nat) :
    ∀ (fuel : Nat) (results : List Res) (current t : ParserState),
      base ≤ current.furthest_index →
      sep_go sep tgt fuel results current = some t →
      base ≤ t.furthest_index := by
  intro fuel
  induction fuel with
  | zero => intro results current t _ h; exact absurd h (by simp [sep_go])
  | succ n ih =>
      intro results current t hc h
      simp only [sep_go] at h
      split at h
      · cases h; exact le_trans hc (fmono_update_none _ _ _ _ _)
      · split at h
        · cases h
          exact le_trans hc (fmono_update current _ _ _ _ _ (by simpa using hs current))
        · split at h
          · cases h
            refine le_trans hc (fmono_update current _ _ _ _ _ ?_)
            simpa using le_trans (hs current) (ht (sep current))
          · exact ih _ _ _ (le_trans hc (le_trans (hs current) (ht (sep current)))) h

theorem seperated_by_fmono (sep tgt : Transformer) (fuel : Nat) (hs : FMono sep)
    (ht : FMono tgt) (s t : ParserState) (h : seperated_by sep tgt fuel s = some t) :
    s.furthest_index ≤ t.furthest_index := by
  simp only [seperated_by] at h
  split at h
  · cases h; exact le_refl _
  · split at h
    · cases h
      exact le_trans (ht s) (fmono_update_none _ _ _ _ _)
    · exact sep_go_fmono sep tgt hs ht s.furthest_index fuel [] (tgt s) t (ht s) h

theorem map_fmono (p : Transformer) (f : Res → Res) (hp : FMono p) : FMono (map p f) := by
  intro s
  simp only [map]
  split
  · exact hp s
  · exact le_trans (hp s) (fmono_update_none _ _ _ _ _)

theorem between_fmono (p l r : Transformer) (hp : FMono p) (hl : FMono l) (hr : FMono r) :
    FMono (between p l (some r)) := by
  unfold between
  refine map_fmono _ _ (sequence_of_fmono _ ?_)
  intro q hq
  simp only [Option.getD_some, List.mem_cons, List.mem_singleton, List.not_mem_nil] at hq
  rcases hq with h | h | h | h
  · exact h ▸ hl
  · exact h ▸ hp
  · exact h ▸ hr
  · exact absurd h (by simp)

theorem between_none_fmono (p l : Transformer) (hp : FMono p) (hl : FMono l) :
    FMono (between p l Option.none) := by
  unfold between
  refine map_fmono _ _ (sequence_of_fmono _ ?_)
  intro q hq
  simp only [Option.getD_none, List.mem_cons, List.mem_singleton, List.not_mem_nil] at hq
  rcases hq with h | h | h | h
  · exact h ▸ hl
  · exact h ▸ hp
  · exact h ▸ hl
  · exact absurd h (by simp)

theorem lazy_fmono (f : Unit → Transformer) (hf : FMono (f ())) : FMono (lazy f) := by
  intro s
  simp only [lazy]
  split
  · exact le_refl _
  · exact hf s

/-!
Claim C9.
-/

/-- C9: for every reachable `ParserState` — the seed state created by `run`
and every state produced by the state-transition operation
`ParserState.update`, through which every state updater of the library
goes — `furthest_index >= index` holds.  The second conjunct is
unconditional: `update` always raises the stored furthest index to the new
index when the latter exceeds it. -/
theorem reachable_furthest_ge_index :
    (∀ (target : String) (traverse : Bool),
      (initState target traverse).index ≤ (initState target traverse).furthest_index) ∧
    (∀ (s : ParserState) (i fi : Option Nat) (r : ResArg) (e : Option Bool)
        (errs : Option (List String)),
      (s.update i fi r e errs).index ≤ (s.update i fi r e errs).furthest_index) := by
  constructor
  · intro target traverse
    exact le_refl 0
  · intro s i fi r e errs
    rw [update_index, update_furthest_index]
    exact le_max_right _ _

/-!
Claim C10.
-/

/-- C10: for every regex pattern (modelled by its `^`-anchored match
function `f` together with its text `pat`) and non-error state `s`: if no
characters remain at `s.index` the matcher fails with an EOF error — for
every `f`, hence even when the pattern accepts the empty string; if
characters remain and the anchored pattern matches zero characters, the
matcher succeeds with the empty string as result and the index unchanged. -/
theorem regex_empty_cases (pat : String) (f : List Char → Option String) (s : ParserState)
    (hs : s.is_error = false) :
    (s.is_remaining_target_empty Option.none = true →
      (regex pat f s).is_error = true ∧
      (regex pat f s).errors = "regex: reached EOF" :: s.errors ∧
      (regex pat f s).index = s.index) ∧
    (s.is_remaining_target_empty Option.none = false →
      f (s.get_target_segment Option.none) = some "" →
      (regex pat f s).is_error = false ∧
      (regex pat f s).result = Res.str "" ∧
      (regex pat f s).index = s.index) := by
  constructor
  · intro hempty
    simp only [regex, hs, hempty, Bool.false_eq_true, if_false, if_true]
    exact ⟨rfl, rfl, rfl⟩
  · intro hempty hmatch
    simp only [regex, hs, hempty, hmatch, Bool.false_eq_true, if_false]
    exact ⟨hs, rfl, rfl⟩

/-- Witness for C10 at concrete inputs: the matcher of `[0-9]*` (which
accepts the empty string) hits EOF on an empty target, and matches zero
characters on target "ab". -/
theorem regex_empty_cases_witness :
    ((regex "[0-9]*" (fun seg => some (String.mk (seg.takeWhile Char.isDigit)))
        (initState "" false)).is_error = true ∧
     (regex "[0-9]*" (fun seg => some (String.mk (seg.takeWhile Char.isDigit)))
        (initState "" false)).errors = "regex: reached EOF" :: (initState "" false).errors ∧
     (regex "[0-9]*" (fun seg => some (String.mk (seg.takeWhile Char.isDigit)))
        (initState "" false)).index = (initState "" false).index) ∧
    ((regex "[0-9]*" (fun seg => some (String.mk (seg.takeWhile Char.isDigit)))
        (initState "ab" false)).is_error = false ∧
     (regex "[0-9]*" (fun seg => some (String.mk (seg.takeWhile Char.isDigit)))
        (initState "ab" false)).result = Res.str "" ∧
     (regex "[0-9]*" (fun seg => some (String.mk (seg.takeWhile Char.isDigit)))
        (initState "ab" false)).index = (initState "ab" false).index) :=
  ⟨(regex_empty_cases "[0-9]*" _ (initState "" false) rfl).1 (by decide),
   (regex_empty_cases "[0-9]*" _ (initState "ab" false) rfl).2 (by decide) (by decide)⟩

/-!
Claim C5.
-/

/-- C5: `optional(p)` applied to a non-error state never produces an error
state: if `p` succeeds, `optional(p)` returns p's output unchanged; if `p`
fails, it returns a state with the same index, errors, target and traverse
flag as `s`, an absent result, `is_error` false, and `furthest_index` equal
to the failed attempt's `furthest_index`.  The hypothesis
`s.index ≤ (p s).furthest_index` holds for every parser of the library
applied to an invariant-satisfying state (C9 together with C2's
monotonicity). -/
theorem optional_spec (p : Transformer) (s : ParserState) (hs : s.is_error = false) :
    ((p s).is_error = false → optional p s = p s) ∧
    ((p s).is_error = true → s.index ≤ (p s).furthest_index →
      (optional p s).is_error = false ∧
      (optional p s).index = s.index ∧
      (optional p s).result = Res.none ∧
      (optional p s).furthest_index = (p s).furthest_index ∧
      (optional p s).errors = s.errors ∧
      (optional p s).target = s.target ∧
      (optional p s).traverse = s.traverse) := by
  constructor
  · intro hp
    simp only [optional, hs, hp, Bool.false_eq_true, if_false]
  · intro hp hidx
    simp only [optional, hs, hp, Bool.false_eq_true, if_false, if_true]
    refine ⟨hs, rfl, rfl, ?_, rfl, rfl, rfl⟩
    rw [ParserState.update_result_and_index, update_furthest_index]
    simp only [Option.getD_some, Option.getD_none]
    omega

/-- Witness for C5 at concrete inputs: `optional(string "y")` on target "y"
returns the successful state unchanged, and `optional(string "x")` on
target "y" succeeds with an absent result. -/
theorem optional_spec_witness :
    (optional (string "y") (initState "y" false) = (string "y") (initState "y" false)) ∧
    ((optional (string "x") (initState "y" false)).is_error = false ∧
     (optional (string "x") (initState "y" false)).index = (initState "y" false).index ∧
     (optional (string "x") (initState "y" false)).result = Res.none ∧
     (optional (string "x") (initState "y" false)).furthest_index
       = ((string "x") (initState "y" false)).furthest_index ∧
     (optional (string "x") (initState "y" false)).errors = (initState "y" false).errors ∧
     (optional (string "x") (initState "y" false)).target = (initState "y" false).target ∧
     (optional (string "x") (initState "y" false)).traverse = (initState "y" false).traverse) :=
  ⟨(optional_spec (string "y") (initState "y" false) rfl).1 (by decide),
   (optional_spec (string "x") (initState "y" false) rfl).2 (by decide) (by decide)⟩

/-!
Claim C3.
-/

/-- C3 counterexample: `string "a"` succeeds on "ab" with result `"a"`; for
the transform that returns Python `None`, `map` does not replace the result
with `None` as the claim requires — `update` drops a plain `None` result
argument, so the old result `"a"` survives. -/
theorem map_none_counterexample :
    ((string "a") (initState "ab" false)).is_error = false ∧
    ((map (string "a") (fun _ => Res.none)) (initState "ab" false)).result = Res.str "a" ∧
    Res.str "a" ≠ Res.none := by decide

/-- C3 amended: if `p` succeeds on `s`, `p.map(f)` returns p's output state
with index, errors, error flag, target and traverse unchanged, and with its
result replaced by `f` of p's result — except that when `f` returns the
absent value `Res.none`, the result field keeps p's result (`update` drops
a plain `None`).  The furthest index is re-normalised to
`max furthest_index index` (unchanged whenever the C9 invariant holds).  If
`p` fails on `s`, `p.map(f)` returns p's failure state unchanged. -/
theorem map_spec (p : Transformer) (f : Res → Res) (s : ParserState) :
    ((p s).is_error = false →
      (map p f s).is_error = false ∧
      (map p f s).index = (p s).index ∧
      (map p f s).errors = (p s).errors ∧
      (map p f s).target = (p s).target ∧
      (map p f s).traverse = (p s).traverse ∧
      (map p f s).furthest_index = max (p s).furthest_index (p s).index ∧
      (map p f s).result = (match f (p s).result with
        | Res.none => (p s).result
        | Res.str a => Res.str a
        | Res.list l => Res.list l)) ∧
    ((p s).is_error = true → map p f s = p s) := by
  constructor
  · intro hp
    simp only [map, hp, Bool.false_eq_true, if_false]
    refine ⟨hp, rfl, rfl, rfl, rfl, ?_, ?_⟩
    · rw [update_furthest_index]
      rfl
    · cases hfr : f (p s).result with
      | none => simp only [hfr]; rfl
      | str a => simp only [hfr]; rfl
      | list l => simp only [hfr]; rfl
  · intro hp
    simp only [map, hp, if_true]

/-!
Claim C4 and its helper lemmas about the `any_of` loop.
-/

theorem ite_lt_max (a b : Nat) : (if a < b then b else a) = max a b := by
  split <;> omega

theorem foldl_max_init_le : ∀ (l : List Nat) (b : Nat), b ≤ l.foldl max b := by
  intro l
  induction l with
  | nil => intro b; exact le_refl b
  | cons x xs ih =>
      intro b
      rw [List.foldl_cons]
      exact le_trans (le_max_left b x) (ih (max b x))

theorem le_foldl_max : ∀ (l : List Nat) (b a : Nat), a ∈ l → a ≤ l.foldl max b := by
  intro l
  induction l with
  | nil => intro b a ha; exact absurd ha (List.not_mem_nil a)
  | cons x xs ih =>
      intro b a ha
      rw [List.foldl_cons]
      rcases List.mem_cons.mp ha with rfl | h
      · exact le_trans (le_max_right b a) (foldl_max_init_le xs (max b a))
      · exact ih (max b x) a h

theorem any_go_all_fail (s : ParserState) :
    ∀ (ps : List Transformer) (f : Nat), (∀ p ∈ ps, (p s).is_error = true) →
      any_go s ps f = s.add_error "any_of: no target matched!"
        (some ((ps.map (fun p => (p s).furthest_index)).foldl max f)) := by
  intro ps
  induction ps with
  | nil => intro f _; rfl
  | cons p rest ih =>
      intro f hfail
      simp only [any_go, hfail p (by simp), if_true, List.map_cons, List.foldl_cons]
      rw [ih _ (fun q hq => hfail q (by simp [hq])), ite_lt_max]

theorem any_go_first_success (s : ParserState) :
    ∀ (ps : List Transformer) (f : Nat) (n : Nat) (hn : n < ps.length),
      (∀ (i : Nat) (hi : i < ps.length), i < n → ((ps.get ⟨i, hi⟩) s).is_error = true) →
      ((ps.get ⟨n, hn⟩) s).is_error = false →
      any_go s ps f = (ps.get ⟨n, hn⟩) s := by
  intro ps
  induction ps with
  | nil => intro f n hn; exact absurd hn (by simp)
  | cons p rest ih =>
      intro f n hn hprev hsucc
      cases n with
      | zero =>
          simp only [List.get] at hsucc
          simp only [any_go, hsucc, Bool.false_eq_true, if_false, List.get]
      | succ m =>
          have h0 : (p s).is_error = true := hprev 0 (by simp) (by omega)
          simp only [any_go, h0, if_true]
          exact ih _ m (by simpa using hn)
            (fun i hi him => hprev (i + 1) (by simpa using hi) (by omega)) hsucc

/-- C4: `any_of` applies each alternative, in declared order, to the same
original state `s`, and returns the output of the first alternative that
succeeds; if every alternative fails it returns `s` marked as an error with
the message "any_of: no target matched!" and with `furthest_index` equal to
the maximum `furthest_index` reached among the failed alternatives.  The
all-fail part assumes at least one alternative and that each alternative's
output `furthest_index` is at least `s.index` (true of every library parser
by C9 and C2's monotonicity). -/
theorem any_of_spec (ps : List Transformer) (s : ParserState) (hs : s.is_error = false) :
    (∀ (n : Nat) (hn : n < ps.length),
      (∀ (i : Nat) (hi : i < ps.length), i < n → ((ps.get ⟨i, hi⟩) s).is_error = true) →
      ((ps.get ⟨n, hn⟩) s).is_error = false →
      any_of ps s = (ps.get ⟨n, hn⟩) s) ∧
    (ps ≠ [] →
      (∀ p ∈ ps, (p s).is_error = true) →
      (∀ p ∈ ps, s.index ≤ (p s).furthest_index) →
      (any_of ps s).is_error = true ∧
      (any_of ps s).errors = "any_of: no target matched!" :: s.errors ∧
      (any_of ps s).index = s.index ∧
      (any_of ps s).result = s.result ∧
      (any_of ps s).furthest_index
        = (ps.map (fun p => (p s).furthest_index)).foldl max 0) := by
  constructor
  · intro n hn hprev hsucc
    simp only [any_of, hs, Bool.false_eq_true, if_false]
    exact any_go_first_success s ps 0 n hn hprev hsucc
  · intro hne hfail hmono
    simp only [any_of, hs, Bool.false_eq_true, if_false]
    rw [any_go_all_fail s ps 0 hfail]
    refine ⟨rfl, rfl, rfl, rfl, ?_⟩
    rw [add_error_furthest_index]
    simp only [Option.getD_some]
    obtain ⟨p0, ps', rfl⟩ := List.exists_cons_of_ne_nil hne
    have h1 : s.index ≤ (p0 s).furthest_index := hmono p0 (by simp)
    have h2 : (p0 s).furthest_index
        ≤ ((p0 :: ps').map (fun p => (p s).furthest_index)).foldl max 0 :=
      le_foldl_max _ 0 _ (List.mem_map_of_mem _ (List.mem_cons_self p0 ps'))
    exact max_eq_left (le_trans h1 h2)

/-- Witness for C4 at concrete inputs: the first successful alternative is
returned (example `any_of(literal "a", literal "b")` on "ax"), and on total
failure (`any_of(literal "ab", literal "ac")` on "ax") the state is the
original one marked with the "no target matched" error and the maximal
furthest index of the alternatives. -/
theorem any_of_spec_witness :
    (any_of [string "a", string "b"] (initState "ax" false)
      = (string "a") (initState "ax" false)) ∧
    ((any_of [string "ab", string "ac"] (initState "ax" false)).is_error = true ∧
     (any_of [string "ab", string "ac"] (initState "ax" false)).errors
       = "any_of: no target matched!" :: (initState "ax" false).errors ∧
     (any_of [string "ab", string "ac"] (initState "ax" false)).index
       = (initState "ax" false).index ∧
     (any_of [string "ab", string "ac"] (initState "ax" false)).result
       = (initState "ax" false).result ∧
     (any_of [string "ab", string "ac"] (initState "ax" false)).furthest_index
       = (([string "ab", string "ac"].map
           (fun p => (p (initState "ax" false)).furthest_index)).foldl max 0)) :=
  ⟨(any_of_spec [string "a", string "b"] (initState "ax" false) rfl).1 0 (by decide)
      (by decide) (by decide),
   (any_of_spec [string "ab", string "ac"] (initState "ax" false) rfl).2
      (List.cons_ne_nil _ _) (by decide) (by decide)⟩

/-!
Claim C2.
-/

/-- C2 counterexample: inside the run of
`sequence(optional(sequence(string "a", string "b")), any_of())` on "ac",
the state reached after the optional (a reachable, non-error state) has
`furthest_index = 1`, but the state `any_of` with zero alternatives derives
from it has `furthest_index = 0`: the transition decreases the furthest
index, refuting the claim for the zero-alternative case it covers. -/
theorem furthest_monotone_counterexample :
    (optional (sequence_of [string "a", string "b"]) (initState "ac" false)).is_error = false ∧
    (optional (sequence_of [string "a", string "b"]) (initState "ac" false)).furthest_index = 1 ∧
    (any_of [] (optional (sequence_of [string "a", string "b"])
      (initState "ac" false))).furthest_index = 0 ∧
    (run (sequence_of [optional (sequence_of [string "a", string "b"]), any_of []])
      "ac" false).furthest_index = 0 := by decide

/-- C2 amended: `furthest_index` is non-decreasing across every combinator
application of the library — unconditionally for the primitive matchers,
and for every composite combinator whose children are themselves
monotone — with the single exception that `any_of` must have at least one
alternative: an `any_of` over zero alternatives resets the furthest index
to the incoming state's `index` (see the counterexample).  For the fuelled
loops (`many`, `seperated_by`) the statement covers every terminating
run. -/
theorem furthest_monotone :
    (∀ tm : String, FMono (string tm)) ∧
    (∀ (pat : String) (f : List Char → Option String), FMono (regex pat f)) ∧
    (∀ p : Transformer, FMono p → FMono (optional p)) ∧
    (∀ ps : List Transformer, (∀ p ∈ ps, FMono p) → FMono (sequence_of ps)) ∧
    (∀ ps : List Transformer, ps ≠ [] → (∀ p ∈ ps, FMono p) → FMono (any_of ps)) ∧
    (∀ (p : Transformer) (m fuel : Nat) (s t : ParserState), FMono p →
      many p m fuel s = some t → s.furthest_index ≤ t.furthest_index) ∧
    (∀ (sep tgt : Transformer) (fuel : Nat) (s t : ParserState), FMono sep → FMono tgt →
      seperated_by sep tgt fuel s = some t → s.furthest_index ≤ t.furthest_index) ∧
    (∀ (p : Transformer) (f : Res → Res), FMono p → FMono (map p f)) ∧
    (∀ (p l r : Transformer), FMono p → FMono l → FMono r → FMono (between p l (some r))) ∧
    (∀ (p l : Transformer), FMono p → FMono l → FMono (between p l Option.none)) ∧
    (∀ f : Unit → Transformer, FMono (f ()) → FMono (lazy f)) :=
  ⟨string_fmono, regex_fmono, optional_fmono, sequence_of_fmono, any_of_fmono,
   fun p m fuel s t hp h => many_fmono p m fuel hp s t h,
   fun sep tgt fuel s t hsep htgt h => seperated_by_fmono sep tgt fuel hsep htgt s t h,
   map_fmono, between_fmono, between_none_fmono, lazy_fmono⟩

/-- Witness for C2's amended theorem at a concrete input: an `optional`
over a literal matcher is furthest-monotone on the seed state for "b". -/
theorem furthest_monotone_witness :
    (initState "b" false).furthest_index
      ≤ (optional (string "a") (initState "b" false)).furthest_index :=
  (furthest_monotone.2.2.1 (string "a") (furthest_monotone.1 "a")) (initState "b" false)

/-!
Claim C1 and its helper lemmas about the `many` loop.
-/

theorem chain_shift (p : Transformer) (s : ParserState) :
    ∀ k, chain p (p s) k = chain p s (k + 1) := by
  intro k
  induction k with
  | zero => rfl
  | succ n ih =>
      show p (chain p (p s) n) = p (chain p s (n + 1))
      rw [ih]

theorem results_shift (p : Transformer) (current : ParserState) (kk : Nat) (results : List Res) :
    (results ++ [(p current).result]) ++
      (List.range kk).map (fun i => (chain p (p current) (i + 1)).result)
    = results ++ (List.range (kk + 1)).map (fun i => (chain p current (i + 1)).result) := by
  rw [List.range_succ_eq_map, List.map_cons, List.map_map, List.append_assoc,
    List.singleton_append]
  have hf : (fun i => (chain p (p current) (i + 1)).result)
      = ((fun i => (chain p current (i + 1)).result) ∘ Nat.succ) := by
    funext i
    rw [chain_shift]
    rfl
  rw [hf]
  rfl

theorem update_result_and_index_list_eq (s : ParserState) (L : List Res) (fi : Nat) :
    s.update_result_and_index (ResArg.val (Res.list L)) Option.none (some fi)
      = { s with furthest_index := max fi s.index, result := Res.list L } := by
  refine ParserState.ext rfl rfl rfl ?_ rfl rfl rfl
  rw [ParserState.update_result_and_index, update_furthest_index]
  simp only [Option.getD_some, Option.getD_none]

theorem many_go_run (p : Transformer) (m : Nat) (s0 : ParserState) :
    ∀ (k fuel : Nat) (results : List Res) (current : ParserState),
      (∀ i, i < k → (chain p current (i + 1)).is_error = false) →
      (chain p current (k + 1)).is_error = true →
      m ≤ results.length + k → k < fuel →
      many_go p m s0 fuel results current = some
        ((chain p current k).update_result_and_index
          (ResArg.val (Res.list (results ++
            (List.range k).map (fun i => (chain p current (i + 1)).result))))
          Option.none (some (chain p current k).furthest_index)) := by
  intro k
  induction k with
  | zero =>
      intro fuel results current hsucc hfail hm hfuel
      cases fuel with
      | zero => omega
      | succ n =>
          have hf : (p current).is_error = true := hfail
          simp only [many_go, hf, if_true]
          rw [if_neg (by omega)]
          simp only [chain, List.range_zero, List.map_nil, List.append_nil]
  | succ kk ih =>
      intro fuel results current hsucc hfail hm hfuel
      cases fuel with
      | zero => omega
      | succ n =>
          have h0 : (p current).is_error = false := hsucc 0 (by omega)
          simp only [many_go, h0, Bool.false_eq_true, if_false]
          rw [ih n (results ++ [(p current).result]) (p current)
            (fun i hi => by rw [chain_shift]; exact hsucc (i + 1) (by omega))
            (by rw [chain_shift]; exact hfail)
            (by simp only [List.length_append, List.length_singleton]; omega)
            (by omega)]
          rw [chain_shift, results_shift]

/-- C1 counterexample: for `p = sequence(string "a", string "b")` on target
"abac" with minimum 1, the loop reaches k = 1 successes and the failing
second attempt reaches `furthest_index` 3, but `many` returns a state with
`furthest_index` 2 — the last successful state's value, not the failing
attempt's as the claim requires. -/
theorem many_furthest_counterexample :
    ((sequence_of [string "a", string "b"]) (initState "abac" false)).is_error = false ∧
    ((sequence_of [string "a", string "b"])
      ((sequence_of [string "a", string "b"]) (initState "abac" false))).is_error = true ∧
    ((sequence_of [string "a", string "b"])
      ((sequence_of [string "a", string "b"]) (initState "abac" false))).furthest_index = 3 ∧
    Option.map ParserState.furthest_index
      (many (sequence_of [string "a", string "b"]) 1 10 (initState "abac" false)) = some 2 ∧
    Option.map ParserState.furthest_index
      (many (sequence_of [string "a", string "b"]) 1 10 (initState "abac" false))
      ≠ some ((sequence_of [string "a", string "b"])
          ((sequence_of [string "a", string "b"]) (initState "abac" false))).furthest_index := by
  decide

/-- C1 amended: if `many(p, m)` on a non-error state `s` reaches `k >= m`
successful applications before an application fails (and the fuel covers the
run), it returns the state produced by the last successful application with
its result replaced by the list of the `k` collected results and its
`furthest_index` equal to that last successful state's own furthest index
(raised to its index if needed) — the failing attempt's `furthest_index` is
discarded, not preserved as the claim states. -/
theorem many_success (p : Transformer) (m fuel k : Nat) (s : ParserState)
    (hs : s.is_error = false)
    (hsucc : ∀ i, i < k → (chain p s (i + 1)).is_error = false)
    (hfail : (chain p s (k + 1)).is_error = true)
    (hm : m ≤ k) (hfuel : k < fuel) :
    many p m fuel s = some
      { chain p s k with
        furthest_index := max (chain p s k).furthest_index (chain p s k).index,
        result := Res.list ((List.range k).map (fun i => (chain p s (i + 1)).result)) } := by
  simp only [many, hs, Bool.false_eq_true, if_false]
  rw [many_go_run p m s k fuel [] s hsucc hfail (by omega) hfuel,
    update_result_and_index_list_eq]
  simp only [List.nil_append]

/-- Witness for C1's amended theorem at the counterexample input: one
successful application of `sequence(string "a", string "b")` on "abac",
then a failing attempt. -/
theorem many_success_witness :
    many (sequence_of [string "a", string "b"]) 1 3 (initState "abac" false) = some
      { chain (sequence_of [string "a", string "b"]) (initState "abac" false) 1 with
        furthest_index := max
          (chain (sequence_of [string "a", string "b"]) (initState "abac" false) 1).furthest_index
          (chain (sequence_of [string "a", string "b"]) (initState "abac" false) 1).index,
        result := Res.list ((List.range 1).map (fun i =>
          (chain (sequence_of [string "a", string "b"]) (initState "abac" false)
            (i + 1)).result)) } :=
  many_success (sequence_of [string "a", string "b"]) 1 3 1 (initState "abac" false)
    rfl (by decide) (by decide) (by omega) (by omega)

/-- Witness for C3's amended theorem at concrete inputs: a successful map
with a non-`None` transform result, and a failing wrapped parser passed
through unchanged. -/
theorem map_spec_witness :
    ((map (string "a") (fun _ => Res.str "b")) (initState "ab" false)).result = Res.str "b" ∧
    (map (string "x") (fun _ => Res.str "b")) (initState "y" false)
      = (string "x") (initState "y" false) :=
  ⟨((map_spec (string "a") (fun _ => Res.str "b") (initState "ab" false)).1
      (by decide)).2.2.2.2.2.2,
   (map_spec (string "x") (fun _ => Res.str "b") (initState "y" false)).2 (by decide)⟩

/-!
Claim C6 and its helper lemma about the `seperated_by` loop.
-/

theorem sep_go_no_error (sep tgt : Transformer) :
    ∀ (fuel : Nat) (results : List Res) (current t : ParserState),
      current.is_error = false →
      sep_go sep tgt fuel results current = some t → t.is_error = false := by
  intro fuel
  induction fuel with
  | zero => intro results current t _ h; exact absurd h (by simp [sep_go])
  | succ n ih =>
      intro results current t hc h
      simp only [sep_go] at h
      split at h
      · cases h; exact hc
      · split at h
        · cases h; exact hc
        · split at h
          · cases h; exact hc
          · rename_i hnext
            exact ih _ _ _ (by simpa using hnext) h

/-- C6: with separator `string "+"` and item `DIGITS` on input "1+1+", the
parse succeeds with result ['1', '+', '1'] and final index 3, before the
trailing '+' (which is not consumed and produces no error; the failed
attempt past it only raises the furthest index to 4); and in general, once
the first item matches, a terminating `seperated_by` never returns an error
state — a separator matched without a following item is excluded from the
result, as the concrete run shows. -/
theorem seperated_by_spec :
    (seperated_by (string "+") DIGITS 10 (initState "1+1+" false) = some
      { target := "1+1+", traverse := false, index := 3, furthest_index := 4,
        result := Res.list [Res.str "1", Res.str "+", Res.str "1"],
        is_error := false, errors := [] }) ∧
    (∀ (sep tgt : Transformer) (fuel : Nat) (s t : ParserState),
      s.is_error = false → (tgt s).is_error = false →
      seperated_by sep tgt fuel s = some t → t.is_error = false) := by
  constructor
  · decide
  · intro sep tgt fuel s t hs ht h
    simp only [seperated_by, hs, Bool.false_eq_true, if_false, ht] at h
    exact sep_go_no_error sep tgt fuel [] (tgt s) t ht h

/-- Witness for C6's general conjunct at a concrete input: the state
returned by `seperated_by` on target "1" is not an error state. -/
theorem seperated_by_spec_witness :
    ({ target := "1", traverse := false, index := 1, furthest_index := 1,
       result := Res.list [Res.str "1"], is_error := false,
       errors := [] } : ParserState).is_error = false :=
  seperated_by_spec.2 (string "+") DIGITS 5 (initState "1" false)
    { target := "1", traverse := false, index := 1, furthest_index := 1,
      result := Res.list [Res.str "1"], is_error := false, errors := [] }
    rfl (by decide) (by decide)

/-!
Claim C7 and its helper lemmas about the `sequence_of` loop.
-/

theorem is_present_false_eq_none (r : Res) (h : Res.is_present r = false) : r = Res.none := by
  cases r with
  | none => rfl
  | str a => exact Bool.noConfusion h
  | list l => exact Bool.noConfusion h

theorem is_present_true_of_ne (r : Res) (h : r ≠ Res.none) : Res.is_present r = true := by
  cases r with
  | none => exact absurd rfl h
  | str a => rfl
  | list l => rfl

theorem sequence_go_all_none (orig : ParserState) :
    ∀ (ps : List Transformer) (results : List Res) (current : ParserState),
      current.is_error = false → allSucceedNone ps current = true →
      results.filter Res.is_present = [] → (results ≠ [] ∨ ps ≠ []) →
      (sequence_go orig ps results current).is_error = false ∧
      (sequence_go orig ps results current).result = Res.list [] := by
  intro ps
  induction ps with
  | nil =>
      intro results current hc _ hfilter hne
      have hres : results ≠ [] := by
        rcases hne with h | h
        · exact h
        · exact absurd rfl h
      simp only [sequence_go]
      rw [if_neg (fun h => hres (List.length_eq_zero.mp h))]
      constructor
      · exact hc
      · rw [hfilter]
        rfl
  | cons p rest ih =>
      intro results current hc hall hfilter hne
      simp only [allSucceedNone] at hall
      split at hall
      · exact Bool.noConfusion hall
      · split at hall
        · exact Bool.noConfusion hall
        · rename_i herr hpres
          have herr' : (p current).is_error = false := by simpa using herr
          have hres : (p current).result = Res.none :=
            is_present_false_eq_none _ (by simpa using hpres)
          simp only [sequence_go, herr', Bool.false_eq_true, if_false]
          refine ih (results ++ [(p current).result]) (p current) herr' hall ?_
            (Or.inl (by simp))
          rw [List.filter_append, hfilter, hres]
          rfl

/-- C7 counterexample: `sequence(optional(string "x"))` on "y": the single
parser succeeds with an absent result, so every component result is absent
and the claim predicts a dedicated error — but the code succeeds with an
empty list result, because the emptiness check is made on the unfiltered
collected results. -/
theorem sequence_none_counterexample :
    ((optional (string "x")) (initState "y" false)).is_error = false ∧
    ((optional (string "x")) (initState "y" false)).result = Res.none ∧
    ((sequence_of [optional (string "x")]) (initState "y" false)).is_error = false ∧
    ((sequence_of [optional (string "x")]) (initState "y" false)).result = Res.list [] := by
  decide

/-- C7 amended: on a non-error state, `sequence` fails with its dedicated
error "sequence: parsers matched nothing!" when its parser list is empty;
but when the list is non-empty and every parser succeeds with an absent
result, it does not fail — it succeeds with the empty list as result (the
zero-results check inspects the unfiltered collected results, whose length
equals the number of parsers). -/
theorem sequence_spec :
    (∀ s : ParserState, s.is_error = false →
      (sequence_of [] s).is_error = true ∧
      (sequence_of [] s).errors = "sequence: parsers matched nothing!" :: s.errors) ∧
    (∀ (ps : List Transformer) (s : ParserState), s.is_error = false → ps ≠ [] →
      allSucceedNone ps s = true →
      (sequence_of ps s).is_error = false ∧ (sequence_of ps s).result = Res.list []) := by
  constructor
  · intro s hs
    simp only [sequence_of, hs, Bool.false_eq_true, if_false, sequence_go]
    exact ⟨rfl, rfl⟩
  · intro ps s hs hne hall
    simp only [sequence_of, hs, Bool.false_eq_true, if_false]
    exact sequence_go_all_none s ps [] s hs hall rfl (Or.inr hne)

/-- Witness for C7's amended theorem at concrete inputs: the empty parser
list fails with the dedicated error, and a non-empty all-absent list
succeeds with an empty list result. -/
theorem sequence_spec_witness :
    ((sequence_of [] (initState "y" false)).is_error = true ∧
     (sequence_of [] (initState "y" false)).errors
       = "sequence: parsers matched nothing!" :: (initState "y" false).errors) ∧
    ((sequence_of [optional (string "x")] (initState "y" false)).is_error = false ∧
     (sequence_of [optional (string "x")] (initState "y" false)).result = Res.list []) :=
  ⟨sequence_spec.1 (initState "y" false) rfl,
   sequence_spec.2 [optional (string "x")] (initState "y" false) rfl
     (List.cons_ne_nil _ _) (by decide)⟩

/-!
Claim C8.
-/

/-- C8 counterexample: with middle parser `optional(string "x")` (absent
middle result), left `string "("` and right `string ")"` on "()", all three
components succeed, but `between` returns the right delimiter's value ")"
instead of the middle parser's (absent) value: position 1 of the filtered
component results is no longer the middle component once an absent result
has been dropped. -/
theorem between_middle_counterexample :
    ((string "(") (initState "()" false)).is_error = false ∧
    ((optional (string "x")) ((string "(") (initState "()" false))).is_error = false ∧
    ((optional (string "x")) ((string "(") (initState "()" false))).result = Res.none ∧
    ((string ")") ((optional (string "x"))
      ((string "(") (initState "()" false)))).is_error = false ∧
    (between (optional (string "x")) (string "(") (some (string ")"))
      (initState "()" false)).result = Res.str ")" ∧
    Res.str ")" ≠ Res.none := by decide

/-- C8 amended: `between(left, right)` wraps `sequence(left, self, right)`
and keeps position 1 of the filtered (non-absent) component results; when
all three components succeed and both the left and the middle component
produce non-absent results, the final result is exactly the middle parser's
value (whatever the right component yields), and the parse is not an error;
when `right` is omitted, the `left` combinator is used for both
delimiters. -/
theorem between_spec (p l r : Transformer) (s : ParserState) (hs : s.is_error = false)
    (h1 : (l s).is_error = false)
    (h2 : (p (l s)).is_error = false)
    (h3 : (r (p (l s))).is_error = false)
    (hr1 : (l s).result ≠ Res.none)
    (hr2 : (p (l s)).result ≠ Res.none) :
    (between p l (some r) s).result = (p (l s)).result ∧
    (between p l (some r) s).is_error = false ∧
    (∀ u : ParserState, between p l Option.none u = between p l (some l) u) := by
  have hp1 : Res.is_present (l s).result = true := is_present_true_of_ne _ hr1
  have hp2 : Res.is_present (p (l s)).result = true := is_present_true_of_ne _ hr2
  have hsof : sequence_of [l, p, r] s
      = (r (p (l s))).update_result_and_index
          (ResArg.val (Res.list ((l s).result :: (p (l s)).result ::
            List.filter Res.is_present [(r (p (l s))).result])))
          Option.none Option.none := by
    simp only [sequence_of, hs, Bool.false_eq_true, if_false, sequence_go, h1, h2, h3,
      List.nil_append, List.cons_append, List.filter_cons, hp1, hp2, if_true]
    rw [if_neg (by simp)]
  have hXe : ((r (p (l s))).update_result_and_index
      (ResArg.val (Res.list ((l s).result :: (p (l s)).result ::
        List.filter Res.is_present [(r (p (l s))).result])))
      Option.none Option.none).is_error = false := h3
  have hXr : ((r (p (l s))).update_result_and_index
      (ResArg.val (Res.list ((l s).result :: (p (l s)).result ::
        List.filter Res.is_present [(r (p (l s))).result])))
      Option.none Option.none).result
      = Res.list ((l s).result :: (p (l s)).result ::
          List.filter Res.is_present [(r (p (l s))).result]) := rfl
  refine ⟨?_, ?_, fun u => rfl⟩
  · simp only [between, Option.getD_some, map, hsof, hXe, Bool.false_eq_true, if_false, hXr]
    have hpick : between_pick (Res.list ((l s).result :: (p (l s)).result ::
        List.filter Res.is_present [(r (p (l s))).result])) = (p (l s)).result := rfl
    rw [hpick]
    exact update_result_val_present _ _ _ _ _ _ hr2
  · simp only [between, Option.getD_some, map, hsof, hXe, Bool.false_eq_true, if_false]
    exact hXe

/-- Witness for C8's amended theorem at a concrete input:
`string "a"` between `string "("` and `string ")"` on "(a)" yields the
middle value "a". -/
theorem between_spec_witness :
    (between (string "a") (string "(") (some (string ")"))
      (initState "(a)" false)).result = Res.str "a" ∧
    (between (string "a") (string "(") (some (string ")"))
      (initState "(a)" false)).is_error = false ∧
    between (string "a") (string "(") Option.none (initState "(a)" false)
      = between (string "a") (string "(") (some (string "(")) (initState "(a)" false) := by
  have h := between_spec (string "a") (string "(") (string ")") (initState "(a)" false)
    rfl (by decide) (by decide) (by decide) (by decide) (by decide)
  exact ⟨h.1.trans (by decide), h.2.1, h.2.2 (initState "(a)" false)⟩

end PyParse
